import Mathlib

set_option maxHeartbeats 1000000
set_option linter.unusedVariables false

namespace OllamaSpec

/-!
Shallow embedding of the core of the flux-sales/ollama repository:
the template engine (src/template/template.go), the SentencePiece
tokenizer (src/model/process_text_spm.go), the server capability and
layer-pruning logic (src/server/images.go) and the mllama text decoder
(src/model/models/mllama/model_text.go).
-/

/-! ## Template engine (src/template/template.go) -/

/-- Subset of the Go text/template parse-tree node kinds the repository
walks (text/template/parse). Go embeds a BranchNode inside IfNode; its
pipe, list and else-list are inlined here. RangeNode and WithNode are
treated by the source walkers exactly like IfNode and are not needed by
any claim, so the fragment omits them. A CommandNode is a list of
argument nodes. -/
inductive Node where
  | text : String → Node
  | field : List String → Node
  | vrbl : List String → Node
  | command : List Node → Node
  | pipe : List Node → Node
  | action : Node → Node
  | list : List Node → Node
  | cond : Node → Node → Option Node → Node

mutual

/-- Identifiers collects every field and variable identifier in a parse
tree (Identifiers, template.go): actions recurse into their pipe, pipes
into their commands' arguments, branches into pipe, list and else list. -/
def Identifiers : Node → List String
  | .text _ => []
  | .field ident => ident
  | .vrbl ident => ident
  | .command args => IdentifiersList args
  | .pipe cmds => IdentifiersList cmds
  | .action p => Identifiers p
  | .list ns => IdentifiersList ns
  | .cond p l e =>
    Identifiers p ++ Identifiers l ++
      (match e with
       | some el => Identifiers el
       | none => [])
termination_by structural n => n

/-- Concatenated identifiers of a node list, in order. -/
def IdentifiersList : List Node → List String
  | [] => []
  | n :: ns => Identifiers n ++ IdentifiersList ns
termination_by structural ns => ns

end

/-- Lexicographic rune-wise at-most comparison backing the string sort
(sort.Strings compares byte-wise; on the valid UTF-8 of identifiers the
orders agree). -/
def charsLe : List Char → List Char → Bool
  | [], _ => true
  | _ :: _, [] => false
  | a :: as, b :: bs =>
    if a.toNat < b.toNat then true
    else if b.toNat < a.toNat then false
    else charsLe as bs

/-- String comparison for the variable sort. -/
def stringLe (a b : String) : Bool := charsLe a.data b.data

/-- Insertion of a string into a sorted list; stands in for sort.Strings
over the deduplicated variable names in Template.Vars. -/
def insertSorted (x : String) : List String → List String
  | [] => [x]
  | y :: ys => if stringLe x y then x :: y :: ys else y :: insertSorted x ys

/-- Sorting of the variable-name list (Template.Vars, template.go). -/
def sortStrings (l : List String) : List String := l.foldr insertSorted []

/-- Lowercasing of strings.ToLower as applied to template identifiers,
mapped over the characters (identifiers are ASCII, where the per-rune
case mapping coincides). -/
def lowerString (s : String) : String :=
  String.mk (s.data.map Char.toLower)

/-- Vars lowercases every identifier of the tree, deduplicates and sorts
(Template.Vars, template.go). The tree is its root node list. -/
def Vars (root : List Node) : List String :=
  sortStrings (((IdentifiersList root).map lowerString).dedup)

/-- Prebuilt parse node for the implicit Response action
(the var response, template.go). -/
def responseNode : Node :=
  .action (.pipe [.command [.field ["Response"]]])

/-- Parse appends the implicit Response action when the template mentions
neither messages nor response (Parse, template.go). The Go text/template
parser itself is an external library; the embedding starts from the
parsed root node list. -/
def Parse (root : List Node) : List Node :=
  let vars := Vars root
  if !vars.contains "messages" && !vars.contains "response" then
    root ++ [responseNode]
  else root

/-- Lookup in the string-valued data map handed to template execution;
missing keys render as the zero value (missingkey=zero). -/
def envGet (env : List (String × String)) (k : String) : String :=
  match env.find? (fun p => p.1 == k) with
  | some p => p.2
  | none => ""

mutual

/-- Rendering of the embedded template fragment with text/template
semantics over string values: text writes itself, a field looks up the
map, an action writes its pipe's value, an if node tests non-emptiness
of its pipe's value. -/
def evalNode (env : List (String × String)) : Node → String
  | .text s => s
  | .field [k] => envGet env k
  | .field _ => ""
  | .vrbl _ => ""
  | .command (a :: _) => evalNode env a
  | .command [] => ""
  | .pipe cmds => evalPipeList env cmds
  | .action p => evalNode env p
  | .list ns => evalList env ns
  | .cond p l e =>
    if evalNode env p ≠ "" then evalNode env l
    else
      match e with
      | some el => evalNode env el
      | none => ""
termination_by structural n => n

/-- Value of a pipeline is the value of its last command (function
application between commands lies outside the fragment). -/
def evalPipeList (env : List (String × String)) : List Node → String
  | [] => ""
  | [c] => evalNode env c
  | _ :: c :: cs => evalPipeList env (c :: cs)
termination_by structural cs => cs

/-- Concatenated rendering of a node list. -/
def evalList (env : List (String × String)) : List Node → String
  | [] => ""
  | n :: ns => evalNode env n ++ evalList env ns
termination_by structural ns => ns

end

mutual

/-- deleteNode's walk (deleteNode, template.go): the predicate is asked
first and a true answer deletes the node; otherwise children are walked.
The Go callback closes over a mutable flag, so the embedding threads
that closure state through every call. Go calls the predicate a second
time on the BranchNode embedded in an IfNode; the predicate Execute uses
answers identically on both calls, so the duplicate call is inlined. -/
def delWalk {σ : Type} (fn : σ → Node → σ × Bool) : σ → Node → σ × Option Node
  | st, n =>
    let r := fn st n
    if r.2 then (r.1, none)
    else
      match n with
      | .list ns =>
        let p := delList fn r.1 ns
        (p.1, some (.list p.2))
      | .cond pi l e =>
        match delWalk fn r.1 l with
        | (st2, none) => (st2, none)
        | (st2, some l2) =>
          match e with
          | none => (st2, some (.cond pi l2 none))
          | some el =>
            match delWalk fn st2 el with
            | (st3, none) => (st3, none)
            | (st3, some el2) => (st3, some (.cond pi l2 (some el2)))
      | .action p =>
        match delWalk fn r.1 p with
        | (st2, none) => (st2, none)
        | (st2, some p2) => (st2, some (.action p2))
      | .pipe cmds =>
        match delCmds fn r.1 cmds with
        | (st2, none) => (st2, none)
        | (st2, some cs) => (st2, some (.pipe cs))
      | other => (r.1, some other)
termination_by structural _ n => n

/-- List-node child filtering of deleteNode: walked children that come
back nil are dropped. -/
def delList {σ : Type} (fn : σ → Node → σ × Bool) : σ → List Node → σ × List Node
  | st, [] => (st, [])
  | st, n :: ns =>
    match delWalk fn st n with
    | (st2, none) => delList fn st2 ns
    | (st2, some n2) =>
      let p := delList fn st2 ns
      (p.1, n2 :: p.2)
termination_by structural _ ns => ns

/-- Pipe-command handling of deleteNode: each command's arguments are
walked; a command left without arguments deletes the whole pipe. Parsed
pipes only carry command nodes; anything else passes through unchanged. -/
def delCmds {σ : Type} (fn : σ → Node → σ × Bool) : σ → List Node → σ × Option (List Node)
  | st, [] => (st, some [])
  | st, c :: cs =>
    match c with
    | .command args =>
      let p := delList fn st args
      if p.2.isEmpty then (p.1, none)
      else
        match delCmds fn p.1 cs with
        | (st3, none) => (st3, none)
        | (st3, some rest) => (st3, some (.command p.2 :: rest))
    | other =>
      match delCmds fn st cs with
      | (st2, none) => (st2, none)
      | (st2, some rest) => (st2, some (other :: rest))
termination_by structural _ cs => cs

end

/-- The stateful predicate Execute hands to deleteNode (Execute,
template.go lines 299-306): a field whose identifier chain contains
Response sets the cut flag and answers false; every other node answers
the current flag. -/
def cutPred : Bool → Node → Bool × Bool
  | cut, .field ident => if ident.contains "Response" then (true, false) else (cut, cut)
  | cut, _ => (cut, cut)

/-- Chat message (api.Message): role and content drive collation; images
and tool calls ride along un-inspected by the embedded code paths. -/
structure Message where
  role : String
  content : String
  images : List String := []
  toolCalls : List String := []
deriving DecidableEq, Repr

/-- strings.Join. -/
def joinSep (sep : String) : List String → String
  | [] => ""
  | [s] => s
  | s :: rest => s ++ sep ++ joinSep sep rest

/-- Worker of collate (collate, template.go): walks the messages
accumulating the system-content list and the collated list, the latter
built in reverse so that the Go append-and-mutate-last idiom becomes a
head operation. -/
def collateAux : List Message → List String → List Message → List String × List Message
  | [], sys, col => (sys, col.reverse)
  | m :: rest, sys, col =>
    let sys2 := if m.role == "system" then sys ++ [m.content] else sys
    match col with
    | c :: cs =>
      if c.role == m.role then
        collateAux rest sys2 ({ c with content := c.content ++ "\n\n" ++ m.content } :: cs)
      else
        collateAux rest sys2 (m :: c :: cs)
    | [] => collateAux rest sys2 [m]

/-- collate concatenates all system contents with a blank line and merges
consecutive same-role messages (collate, template.go). -/
def collate (msgs : List Message) : String × List Message :=
  let p := collateAux msgs [] []
  (joinSep "\n\n" p.1, p.2)

/-- The system contents of a message list, in order. -/
def sysContents (msgs : List Message) : List String :=
  (msgs.filter (fun m => m.role == "system")).map Message.content

/-- Adjacent messages of a collated list carry different roles. -/
def roleNe (a b : Message) : Prop := a.role ≠ b.role

/-- Data handed to Execute (Values, template.go). -/
structure Values where
  messages : List Message := []
  prompt : String := ""
  suffix : String := ""
  forceLegacy : Bool := false

/-- One template execution against the rolling legacy triple (the execute
closure inside Execute, template.go). -/
def renderWith (root : List Node) (system prompt response : String) : String :=
  evalNode [("System", system), ("Prompt", prompt), ("Response", response)] (.list root)

/-- The legacy message walk of Execute (template.go lines 265-296): the
state is the accumulated buffer and the rolling (system, prompt,
response) triple; a role about to overwrite a live slot flushes the
triple through the template first. -/
def legacyLoop (root : List Node) :
    List Message → String × String × String × String → String × String × String × String
  | [], st => st
  | m :: rest, (b, system, prompt, response) =>
    if m.role == "system" then
      if prompt ≠ "" ∨ response ≠ "" then
        legacyLoop root rest (b ++ renderWith root system prompt response, m.content, "", "")
      else
        legacyLoop root rest (b, m.content, prompt, response)
    else if m.role == "user" then
      if response ≠ "" then
        legacyLoop root rest (b ++ renderWith root system prompt response, "", m.content, "")
      else
        legacyLoop root rest (b, system, m.content, response)
    else if m.role == "assistant" then
      legacyLoop root rest (b, system, prompt, m.content)
    else
      legacyLoop root rest (b, system, prompt, response)

/-- The tree the legacy path of Execute renders last: the deleteNode
result on a copy of the root under the cut predicate. deleteNode cannot
return nil for the root list (the predicate answers false on it), so the
fallback arm is unreachable (Go would panic through template.Must). -/
def legacyFinalTree (root : List Node) : Node :=
  match (delWalk cutPred false (.list root)).2 with
  | some nd => nd
  | none => .list []

/-- Execute (template.go lines 238-319). The fill-in-the-middle branch
renders once with Prompt, Suffix and an empty Response; the structured
branch renders over message lists, which lies outside the string-valued
fragment and is returned as none (no claim exercises it); the legacy
branch walks the collated messages and then renders once more with the
tree returned by deleteNode under the cut predicate. -/
def Execute (root : List Node) (v : Values) : Option String :=
  let cm := collate v.messages
  if v.prompt ≠ "" ∧ v.suffix ≠ "" then
    some (evalNode [("Prompt", v.prompt), ("Suffix", v.suffix), ("Response", "")] (.list root))
  else if !v.forceLegacy && (Vars root).contains "messages" then
    none
  else
    let w := legacyLoop root cm.2 ("", "", "", "")
    match w with
    | (b, system, prompt, response) =>
      some (b ++ evalNode [("System", system), ("Prompt", prompt), ("Response", response)]
        (legacyFinalTree root))

/-- Root node list of the template source Hello score-brace Prompt. -/
def helloRoot : List Node :=
  [.text "Hello ", .action (.pipe [.command [.field ["Prompt"]]]), .text "!"]

/-- Root node list of a template that already references response. -/
def promptResponseRoot : List Node :=
  [.action (.pipe [.command [.field ["Prompt"]]]),
   .action (.pipe [.command [.field ["Response"]]]),
   .text "!"]

/-! ## SentencePiece tokenizer (src/model/process_text_spm.go) -/

/-- Token type enumeration of the vocabulary (spec §3). -/
inductive TokenType where
  | normal | unknown | control | userDefined | unused | byte
deriving DecidableEq, Repr

/-- Modelled from the spec: the Vocabulary record (§3, §4.1); the Go type
lives outside src/. Scores are float32 in Go and are modelled as
rationals, exact for the vocabularies considered; the tokenizer only
compares them. -/
structure Vocabulary where
  values : List String
  types : List TokenType
  scores : List Rat
  bos : Int
  eos : Int
  addBOS : Bool
  addEOS : Bool
deriving DecidableEq

/-- Modelled from the spec: encode is exact string lookup returning the
id, or -1 when absent (§4.1). -/
def Vocabulary.encode (v : Vocabulary) (s : String) : Int :=
  match v.values.findIdx? (fun t => t == s) with
  | some i => (i : Int)
  | none => -1

/-- Score of a token id (the Scores array access in the merge loop). -/
def Vocabulary.scoreOf (v : Vocabulary) (id : Int) : Rat :=
  (v.scores.get? id.toNat).getD 0

/-- Modelled from the spec: specialVocabulary lists the strings emitted
verbatim when found as substrings (§4.1): the control and user-defined
tokens. -/
def Vocabulary.specialVocabulary (v : Vocabulary) : List String :=
  (v.values.zip v.types).filterMap (fun p =>
    if p.2 = TokenType.control ∨ p.2 = TokenType.userDefined then some p.1 else none)

/-- Tokenizer fragment (the fragment type, process_text_spm.go); values
are modelled as rune lists since the tokenizer works on runes, and the
byte indices of strings.Index fall on rune boundaries for well-formed
special tokens. -/
structure Fragment where
  value : List Char
  ids : List Int
deriving DecidableEq

/-- Total rune length of a fragment list; termination measure of the
special-token splitting pass. -/
def fragsLen (fs : List Fragment) : Nat :=
  (fs.map (fun f => f.value.length)).sum

/-- Whether pat begins the list. -/
def leadsWith : List Char → List Char → Bool
  | [], _ => true
  | _ :: _, [] => false
  | p :: ps, c :: cs => p == c && leadsWith ps cs

/-- First index at which pat occurs as a contiguous run (strings.Index). -/
def subIdx (pat : List Char) : List Char → Option Nat
  | [] => if pat.isEmpty then some 0 else none
  | c :: rest =>
    if leadsWith pat (c :: rest) then some 0
    else (subIdx pat rest).map (fun i => i + 1)

/-- One special-token pass over the fragment list (the inner index loop
of Encode, process_text_spm.go lines 102-123): fragments that already
carry ids are skipped; at the first occurrence a fragment splits into an
optional non-empty prefix, the pre-encoded special and an optional
non-empty rest, and the rest is scanned again. The final arm is only
reachable for an empty special token, which the special vocabulary never
produces (the source would not terminate on it). -/
def splitFrags (sp : List Char) (id : Int) : List Fragment → List Fragment
  | [] => []
  | f :: rest =>
    if f.ids.length > 0 then f :: splitFrags sp id rest
    else
      match subIdx sp f.value with
      | none => f :: splitFrags sp id rest
      | some i =>
        let middle := (if i > 0 then [Fragment.mk (f.value.take i) []] else []) ++ [Fragment.mk sp [id]]
        if (f.value.drop (i + sp.length)).isEmpty then middle ++ splitFrags sp id rest
        else if h : (f.value.drop (i + sp.length)).length < f.value.length then
          middle ++ splitFrags sp id (Fragment.mk (f.value.drop (i + sp.length)) [] :: rest)
        else
          middle ++ (Fragment.mk (f.value.drop (i + sp.length)) [] :: rest)
termination_by fs => fragsLen fs + fs.length
decreasing_by
  all_goals simp only [fragsLen, List.map_cons, List.sum_cons, List.length_cons]
  all_goals omega

/-- Fragmentation pass of Encode (process_text_spm.go lines 99-124):
split every fragment on each special token in order. -/
def fragmentize (v : Vocabulary) (s : String) : List Fragment :=
  v.specialVocabulary.foldl
    (fun fs sp => splitFrags sp.data (v.encode sp) fs)
    [Fragment.mk s.data []]

/-- SentencePieceModel (process_text_spm.go). Modelled from the spec:
the pre-tokenization regex is configuration (§4.2 step 2) compiled by an
external library, carried here as an abstract splitting function.
maxTokenLen is computed by the constructor but never read by Encode. -/
structure SentencePieceModel where
  split : List Char → List (List Char)
  vocab : Vocabulary

/-- Node of the doubly linked rune list of the BPE loop (the merge type,
process_text_spm.go). -/
structure MergeNode where
  p : Int
  n : Int
  runes : List Char
deriving DecidableEq

/-- Candidate pair on the BPE priority queue (the candidate type,
process_text_spm.go); built only for non-negative indices. -/
structure Candidate where
  a : Nat
  b : Nat
  score : Rat
deriving DecidableEq

/-- The pairwise closure of Encode: a candidate for merging the nodes at
indices a and b when their concatenated runes are in the vocabulary;
total is the original rune count len(runes). -/
def pairwiseCand (v : Vocabulary) (merges : List MergeNode) (total : Nat) (a b : Int) : Option Candidate :=
  if a < 0 ∨ b ≥ (total : Int) then none
  else
    let left := ((merges.get? a.toNat).map MergeNode.runes).getD []
    let right := ((merges.get? b.toNat).map MergeNode.runes).getD []
    let id := v.encode (String.mk (left ++ right))
    if id ≥ 0 then some (Candidate.mk a.toNat b.toNat (v.scoreOf id)) else none

/-- Heap order of the BPE queue: higher score first, ties broken by the
lower left index (the comparator passed to the priority queue). -/
def pqBefore (x y : Candidate) : Bool :=
  x.score > y.score || (x.score == y.score && x.a < y.a)

/-- Dequeue of the modelled queue: the earliest-inserted minimal element.
The binary heap leaves the relative order of elements the strict
comparator cannot separate (equal score and left index) unspecified;
insertion order is chosen for those. -/
def dequeueMin : List Candidate → Option (Candidate × List Candidate)
  | [] => none
  | c :: rest =>
    let best := rest.foldl (fun b x => if pqBefore x b then x else b) c
    some (best, (c :: rest).erase best)

/-- Pointer update merges[right.n].p = pair.a of the merge loop; the Go
index is guarded only from above, and is never negative there. -/
def setPrev (merges : List MergeNode) (idx : Int) (newP : Int) : List MergeNode :=
  if 0 ≤ idx ∧ idx < (merges.length : Int) then
    merges.set idx.toNat { ((merges.get? idx.toNat).getD (MergeNode.mk 0 0 [])) with p := newP }
  else merges

/-- The BPE merge loop of Encode (process_text_spm.go lines 184-206),
with explicit fuel: every iteration consumes one queue element, and a
merge pushes at most two while emptying a node, so the enqueue total is
bounded by 3 times the rune count; the fuel the encoder passes exceeds
that bound, and on exhaustion the current merges are returned exactly as
for an empty queue. -/
def bpeLoop (v : Vocabulary) (total : Nat) :
    Nat → List Candidate → List MergeNode → List MergeNode
  | 0, _, merges => merges
  | fuel + 1, pq, merges =>
    match dequeueMin pq with
    | none => merges
    | some (pair, pq2) =>
      let left := (merges.get? pair.a).getD (MergeNode.mk 0 0 [])
      let right := (merges.get? pair.b).getD (MergeNode.mk 0 0 [])
      if left.runes.length = 0 ∨ right.runes.length = 0 then
        bpeLoop v total fuel pq2 merges
      else if v.encode (String.mk (left.runes ++ right.runes)) < 0 then
        bpeLoop v total fuel pq2 merges
      else
        let merges2 := merges.set pair.a { left with runes := left.runes ++ right.runes, n := right.n }
        let merges3 := merges2.set pair.b { right with runes := [] }
        let merges4 := setPrev merges3 right.n (pair.a : Int)
        let newA := (merges4.get? pair.a).getD (MergeNode.mk 0 0 [])
        let pq3 :=
          match pairwiseCand v merges4 total newA.p (pair.a : Int) with
          | some c => pq2 ++ [c]
          | none => pq2
        let pq4 :=
          match pairwiseCand v merges4 total (pair.a : Int) newA.n with
          | some c => pq3 ++ [c]
          | none => pq3
        bpeLoop v total fuel pq4 merges4

/-- Whitespace substitution (replaceWhitespaceBySeperator): ASCII space
becomes the sentinel rune. -/
def spmSubstitute (cs : List Char) : List Char :=
  cs.map (fun c => if c = ' ' then '▁' else c)

/-- BPE encoding of a single pre-tokenized piece (the inner loop of
Encode, lines 134-217): whole-piece shortcut, else linked-list build,
initial adjacent candidates, merge loop, and emission of the surviving
nodes (missing tokens are logged and skipped). -/
def encodePiece (v : Vocabulary) (piece : List Char) : List Int :=
  let wholeId := v.encode (String.mk piece)
  if wholeId ≥ 0 then [wholeId]
  else
    let total := piece.length
    let merges0 := piece.enum.map (fun e =>
      MergeNode.mk ((e.1 : Int) - 1) ((e.1 : Int) + 1) [e.2])
    let pq0 := (List.range (total - 1)).foldl (fun q i =>
      match pairwiseCand v merges0 total (i : Int) ((i : Int) + 1) with
      | some c => q ++ [c]
      | none => q) []
    let merges := bpeLoop v total (4 * total + 4) pq0 merges0
    merges.foldl (fun ids mn =>
      if mn.runes.length > 0 then
        let id := v.encode (String.mk mn.runes)
        if id ≥ 0 then ids ++ [id] else ids
      else ids) []

/-- Encode before the special bookends (Encode, process_text_spm.go
lines 99-218): fragmentation on special tokens, then per fragment either
the pre-populated ids or the pre-tokenized, substituted, BPE-encoded
pieces. -/
def SentencePieceModel.encodeRaw (spm : SentencePieceModel) (s : String) : List Int :=
  (fragmentize spm.vocab s).foldl (fun ids frag =>
    if frag.ids.length > 0 then ids ++ frag.ids
    else
      (spm.split frag.value).foldl (fun ids2 piece =>
        ids2 ++ encodePiece spm.vocab (spmSubstitute piece)) ids) []

/-- Encode with the special-token bookends (Encode, process_text_spm.go
lines 220-235): only applied to a non-empty id sequence; the warnings on
an id already present are log-only and do not change the result. -/
def SentencePieceModel.encode (spm : SentencePieceModel) (s : String) (addSpecial : Bool) : List Int :=
  let ids := spm.encodeRaw s
  if addSpecial ∧ ids.length > 0 then
    let ids2 := if spm.vocab.addBOS then spm.vocab.bos :: ids else ids
    let ids3 := if spm.vocab.addEOS then ids2 ++ [spm.vocab.eos] else ids2
    ids3
  else ids

/-- Modelled from the spec: a configured pre-tokenizer that keeps each
fragment whole; the regex matcher yields no match on the empty string.
Any whitespace-preserving split yields the same ids on the scenario
inputs. -/
def trivialSplit (cs : List Char) : List (List Char) :=
  if cs.isEmpty then [] else [cs]

/-- Concrete vocabulary of scenario S4, with the BOS-addition flag set so
the bookend behavior is also exercised. -/
def vocabS4 : Vocabulary :=
  { values := ["a", "b", "ab", "▁"]
    types := [.normal, .normal, .normal, .normal]
    scores := [-1, -1, -(1 / 2 : Rat), -10]
    bos := 3
    eos := 3
    addBOS := true
    addEOS := false }

/-- Scenario S4 tokenizer. -/
def spmS4 : SentencePieceModel :=
  { split := trivialSplit, vocab := vocabS4 }

/-! ## Server: capability checks and layer pruning (src/server/images.go) -/

/-- Server-side view of a loaded model as consumed by CheckCapabilities
(Model, images.go): the template's variable set plus the outcomes of the
two filesystem steps of the completion check, opening the weights file
and decoding its GGML contents, modelled as fields together with the
pooling-type key lookup of the decoded metadata. -/
structure ServerModel where
  templateVars : List String
  openOk : Bool
  decodeOk : Bool
  hasPoolingType : Bool
deriving DecidableEq

/-- Worker of CheckCapabilities (Model.CheckCapabilities, images.go
lines 57-104) with the collected error list threaded: a failed open or
decode during the completion check is logged and skipped; a present
pooling-type key marks completion unsupported; tools and insert require
the template variables tools and suffix; an unknown capability returns
its own error immediately. An empty error list returns nil, otherwise
one error whose message joins the prefix and the newline-joined errors. -/
def checkCapabilitiesAux (m : ServerModel) : List String → List String → Option String
  | [], errs =>
    match errs with
    | [] => none
    | _ => some ("does not support " ++ joinSep "\n" errs)
  | c :: rest, errs =>
    if c = "completion" then
      if m.openOk = false then checkCapabilitiesAux m rest errs
      else if m.decodeOk = false then checkCapabilitiesAux m rest errs
      else if m.hasPoolingType then checkCapabilitiesAux m rest (errs ++ ["completion"])
      else checkCapabilitiesAux m rest errs
    else if c = "tools" then
      if m.templateVars.contains "tools" then checkCapabilitiesAux m rest errs
      else checkCapabilitiesAux m rest (errs ++ ["tools"])
    else if c = "insert" then
      if m.templateVars.contains "suffix" then checkCapabilitiesAux m rest errs
      else checkCapabilitiesAux m rest (errs ++ ["insert"])
    else some ("unknown capability: " ++ c)

/-- CheckCapabilities (images.go): none models a nil error. -/
def CheckCapabilities (m : ServerModel) (caps : List String) : Option String :=
  checkCapabilitiesAux m caps []

/-- Whether the check finds capability c unsupported on m. -/
def missingCap (m : ServerModel) (c : String) : Bool :=
  if c = "completion" then m.openOk && m.decodeOk && m.hasPoolingType
  else if c = "tools" then !(m.templateVars.contains "tools")
  else if c = "insert" then !(m.templateVars.contains "suffix")
  else false

/-- A model whose template lacks the tools variable, for exercising the
capability error. -/
def modelNoTools : ServerModel :=
  { templateVars := ["prompt", "response"]
    openOk := true
    decodeOk := true
    hasPoolingType := false }

/-- A model whose weights file cannot be opened. -/
def modelNoFile : ServerModel :=
  { templateVars := []
    openOk := false
    decodeOk := true
    hasPoolingType := true }

/-- Installed manifest as seen by layer pruning (Manifest, images.go):
its config digest and its layer digests. -/
structure ManifestD where
  configDigest : String
  layerDigests : List String

/-- Modelled from the spec: GetBlobsPath validates the digest format,
sha256 colon 64 hex digits, failing with ErrInvalidDigestFormat
otherwise (§4.4, §3); only the validation outcome is consumed here. -/
def validDigest (d : String) : Bool :=
  leadsWith "sha256:".data d.data && (d.data.drop 7).length == 64 &&
    (d.data.drop 7).all (fun c => c.isDigit || ('a' ≤ c && c ≤ 'f'))

/-- deleteUnusedLayers (images.go lines 383-412): every digest referenced
as a layer or as the config of an installed manifest is deleted from the
candidate map, and the blob of each remaining candidate whose digest
passes path validation is removed from the blob store. The Go map and
the blob directory are modelled as finite sets; os.Remove on an absent
file only logs and changes nothing, so removal is set difference. -/
def deleteUnusedLayers (manifests : List ManifestD) (deleteMap : Finset String)
    (store : Finset String) : Finset String :=
  let remaining := manifests.foldl
    (fun dm mf => (mf.layerDigests.foldl (fun dm2 d => dm2.erase d) dm).erase mf.configDigest)
    deleteMap
  store \ remaining.filter (fun d => validDigest d)

/-- A digest referenced by some installed manifest, among its layers or
as its config. -/
def referencedDigest (manifests : List ManifestD) (d : String) : Prop :=
  ∃ mf ∈ manifests, d ∈ mf.layerDigests ∨ d = mf.configDigest

instance (manifests : List ManifestD) (d : String) : Decidable (referencedDigest manifests d) := by
  unfold referencedDigest
  infer_instance

/-- Sample digest of the hex digit a. -/
def digA : String := "sha256:aaaaaaaaaaaaaaaaaaaaaaaaaaaaaaaaaaaaaaaaaaaaaaaaaaaaaaaaaaaaaaaa"

/-- Sample digest of the hex digit b. -/
def digB : String := "sha256:bbbbbbbbbbbbbbbbbbbbbbbbbbbbbbbbbbbbbbbbbbbbbbbbbbbbbbbbbbbbbbbb"

/-- Sample digest of the hex digit c. -/
def digC : String := "sha256:cccccccccccccccccccccccccccccccccccccccccccccccccccccccccccccccc"

/-- Sample installed manifest referencing digA as config and digB as its
only layer. -/
def mfAB : ManifestD := { configDigest := digA, layerDigests := [digB] }

/-! ## mllama text decoder (src/model/models/mllama/model_text.go) -/

/-- Symbolic tensor terms over the ml backend operations the decoder
invokes; leaves are model inputs and weights. Shape arguments that
depend on runtime tensor dimensions (the batch and encoder sizes) are
left implicit: reshapeSplit carries the static head dimension and head
count, reshapeMerge the static hidden size. The scale argument of
attention and scale records the head dimension whose inverse square root
the source computes in floating point. -/
inductive T where
  | leaf : String → T
  | reshapeSplit : T → Nat → Nat → T
  | reshapeMerge : T → Nat → T
  | rope : T → T → T → Nat → Nat → Rat → Rat → T
  | linear : T → T → T
  | rmsnorm : T → T → Rat → T
  | silu : T → T
  | mul : T → T → T
  | add : T → T → T
  | rows : T → T → T
  | attention : T → T → T → Nat → T
  | permute : T → Nat → Nat → Nat → Nat → T
  | contiguous : T → T
  | mulmat : T → T → T
  | mulmatFullPrec : T → T → T
  | scale : T → Nat → T
  | softmax : T → T
  | tanh : T → T
  | undef : T
deriving DecidableEq, Repr

/-- Model-wide hyperparameters (TextModelOptions, model_text.go); the
float32 configuration constants are carried as rationals and only ever
stored into terms. -/
structure TextModelOptions where
  hiddenSize : Nat
  numHeads : Nat
  numKVHeads : Nat
  eps : Rat
  ropeBase : Rat
  ropeScale : Rat
  ropeDim : Nat
  crossAttentionLayers : List Nat
deriving DecidableEq, Repr

/-- Modelled from the spec: the wrapper KV cache (§4.6, §3): an active
layer slot and type, per-layer stored key/value pairs, and the
encoder-cached flag that a Put on a cross-attention slot raises; the
kvcache package lives outside src/. -/
structure CacheState where
  layer : Nat := 0
  layerIsCross : Bool := false
  stored : List (Nat × T × T) := []
  encoderCached : Bool := false
deriving DecidableEq, Repr

/-- Cache Put: stores k and v for the current layer; on the encoder
(cross-attention) cache it also raises the encoder-cached flag. -/
def CacheState.put (st : CacheState) (k v : T) : CacheState :=
  if st.layerIsCross then
    { st with stored := (st.layer, k, v) :: st.stored, encoderCached := true }
  else
    { st with stored := (st.layer, k, v) :: st.stored }

/-- Cache Get: the most recently stored pair for the current layer. -/
def CacheState.get (st : CacheState) : T × T :=
  match st.stored.find? (fun e => e.1 == st.layer) with
  | some e => e.2
  | none => (T.undef, T.undef)

/-- Self-attention weights (TextSelfAttention, model_text.go). -/
structure TextSelfAttention where
  query : T
  key : T
  value : T
  output : T
  ropeFactors : T
deriving DecidableEq, Repr

/-- TextSelfAttention.Forward (model_text.go lines 21-42): projections,
reshape, RoPE on q and k, fused attention through the cache (nn.Attention
puts k and v for the current layer), output projection. The mask
parameter is received and ignored by the source. -/
def TextSelfAttention.forward (sa : TextSelfAttention) (st : CacheState)
    (hidden pos mask : T) (opts : TextModelOptions) : T × CacheState :=
  let hd := opts.hiddenSize / opts.numHeads
  let q := T.rope (T.reshapeSplit (T.linear sa.query hidden) hd opts.numHeads)
    pos sa.ropeFactors opts.ropeDim 0 opts.ropeBase opts.ropeScale
  let k := T.rope (T.reshapeSplit (T.linear sa.key hidden) hd opts.numKVHeads)
    pos sa.ropeFactors opts.ropeDim 0 opts.ropeBase opts.ropeScale
  let v := T.reshapeSplit (T.linear sa.value hidden) hd opts.numKVHeads
  let st2 := st.put k v
  (T.linear sa.output (T.reshapeMerge (T.attention q k v hd) opts.hiddenSize), st2)

/-- Gated feed-forward network (TextMLP, model_text.go); the opts
parameter is received and ignored by the source. -/
structure TextMLP where
  up : T
  down : T
  gate : T
deriving DecidableEq, Repr

/-- TextMLP.Forward (model_text.go lines 58-63). -/
def TextMLP.forward (mlp : TextMLP) (x : T) (opts : TextModelOptions) : T :=
  T.linear mlp.down (T.mul (T.silu (T.linear mlp.gate x)) (T.linear mlp.up x))

/-- Self-attention decoder layer (TextSelfAttentionDecoderLayer,
model_text.go). -/
structure TextSelfAttentionDecoderLayer where
  attentionNorm : T
  selfAttention : TextSelfAttention
  mlpNorm : T
  mlp : TextMLP
deriving DecidableEq, Repr

/-- TextSelfAttentionDecoderLayer.Forward (model_text.go lines 74-92):
when the outputs tensor is non-nil both the attention output and the
residual are row-gathered before the residual addition. -/
def TextSelfAttentionDecoderLayer.forward (d : TextSelfAttentionDecoderLayer)
    (st : CacheState) (hidden pos : T) (outputs : Option T) (mask : T)
    (opts : TextModelOptions) : T × CacheState :=
  let res := hidden
  let h1 := T.rmsnorm d.attentionNorm hidden opts.eps
  let p := d.selfAttention.forward st h1 pos mask opts
  let gathered :=
    match outputs with
    | some out => (T.rows p.1 out, T.rows res out)
    | none => (p.1, res)
  let h2 := T.add gathered.1 gathered.2
  let h3 := T.rmsnorm d.mlpNorm h2 opts.eps
  (T.add (d.mlp.forward h3 opts) h2, p.2)

/-- Cross-attention weights (TextCrossAttention, model_text.go). -/
structure TextCrossAttention where
  queryNorm : T
  query : T
  keyNorm : T
  key : T
  value : T
  output : T
deriving DecidableEq, Repr

/-- TextCrossAttention.Forward (model_text.go lines 104-142): when
encoder output is present the projected k and v are put into the cache;
either way the cached pair is read back, and explicit softmax attention
is computed. -/
def TextCrossAttention.forward (ca : TextCrossAttention) (st : CacheState)
    (hidden : T) (enc : Option T) (opts : TextModelOptions) : T × CacheState :=
  let hd := opts.hiddenSize / opts.numHeads
  let q := T.rmsnorm ca.queryNorm
    (T.reshapeSplit (T.linear ca.query hidden) hd opts.numHeads) opts.eps
  let st2 :=
    match enc with
    | some e =>
      let k := T.rmsnorm ca.keyNorm
        (T.reshapeSplit (T.linear ca.key e) hd opts.numKVHeads) opts.eps
      let v := T.reshapeSplit (T.linear ca.value e) hd opts.numKVHeads
      st.put k v
    | none => st
  let kv := st2.get
  let attn := T.softmax (T.scale
    (T.mulmatFullPrec (T.permute kv.1 0 2 1 3) (T.permute q 0 2 1 3)) hd)
  let res := T.reshapeMerge
    (T.contiguous (T.permute
      (T.mulmat (T.contiguous (T.permute kv.2 1 2 0 3)) attn) 0 2 1 3))
    opts.hiddenSize
  (T.linear ca.output res, st2)

/-- Cross-attention decoder layer (TextCrossAttentionDecoderLayer,
model_text.go). -/
structure TextCrossAttentionDecoderLayer where
  attentionNorm : T
  crossAttention : TextCrossAttention
  attentionGate : T
  mlpNorm : T
  mlp : TextMLP
  mlpGate : T
deriving DecidableEq, Repr

/-- TextCrossAttentionDecoderLayer.Forward (model_text.go lines 155-168):
each residual addition is gated by tanh of the corresponding gate; the
pos, outputs and mask parameters are received and ignored by the source. -/
def TextCrossAttentionDecoderLayer.forward (d : TextCrossAttentionDecoderLayer)
    (st : CacheState) (hidden : T) (enc : Option T)
    (opts : TextModelOptions) : T × CacheState :=
  let res := hidden
  let h1 := T.rmsnorm d.attentionNorm hidden opts.eps
  let p := d.crossAttention.forward st h1 enc opts
  let h2 := T.add (T.mul p.1 (T.tanh d.attentionGate)) res
  let h3 := T.rmsnorm d.mlpNorm h2 opts.eps
  (T.add (T.mul (d.mlp.forward h3 opts) (T.tanh d.mlpGate)) h2, p.2)

/-- Heterogeneous decoder layer (TextDecoderLayer, model_text.go). -/
inductive TextDecoderLayer where
  | selfAttn : TextSelfAttentionDecoderLayer → TextDecoderLayer
  | cross : TextCrossAttentionDecoderLayer → TextDecoderLayer
deriving DecidableEq, Repr

/-- Dispatch of the common Forward signature: the self-attention layer
consumes hidden, pos, outputs and mask; the cross-attention layer
consumes hidden and enc (model_text.go signatures). -/
def TextDecoderLayer.forward : TextDecoderLayer → CacheState → T → T → Option T → T → Option T → T → TextModelOptions → T × CacheState
  | .selfAttn d, st, hidden, pos, outputs, mask, _, _, opts =>
    d.forward st hidden pos outputs mask opts
  | .cross d, st, hidden, _, _, _, enc, _, opts =>
    d.forward st hidden enc opts

/-- Layer kind at a block index, read off the configuration's
cross-attention layer list (the lt computation in TextDecoder.Forward). -/
inductive LayerKind where
  | selfK | crossK
deriving DecidableEq, Repr

/-- The configured kind of layer i. -/
def layerKindAt (opts : TextModelOptions) (i : Nat) : LayerKind :=
  if opts.crossAttentionLayers.contains i then .crossK else .selfK

/-- The decoder layer loop (TextDecoder.Forward, model_text.go lines
179-197): per index the layer type comes from the configuration, the
cache slot and type are switched, a cross-attention layer runs only when
encoder output is present or the cache already has encoder state, and
only the iteration at the last index (total - 1) passes the row-gather
outputs tensor to the layer. -/
def decoderLoop (opts : TextModelOptions) (total : Nat) (pos : T)
    (outputs : Option T) (mask : T) (enc : Option T) (encMask : T) :
    List TextDecoderLayer → Nat → T → CacheState → T × CacheState
  | [], _, hidden, st => (hidden, st)
  | l :: rest, i, hidden, st =>
    let lt := layerKindAt opts i
    let st2 := { st with layer := i, layerIsCross := lt == LayerKind.crossK }
    if lt == LayerKind.selfK || enc.isSome || st2.encoderCached then
      let out := if i == total - 1 then outputs else none
      let p := l.forward st2 hidden pos out mask enc encMask opts
      decoderLoop opts total pos outputs mask enc encMask rest (i + 1) p.1 p.2
    else
      decoderLoop opts total pos outputs mask enc encMask rest (i + 1) hidden st2

/-- TextDecoder.Forward (model_text.go): the loop from index 0 with the
layer count as total. -/
def TextDecoder.forward (layers : List TextDecoderLayer) (opts : TextModelOptions)
    (hidden pos : T) (outputs : Option T) (mask : T) (enc : Option T) (encMask : T)
    (st : CacheState) : T × CacheState :=
  decoderLoop opts layers.length pos outputs mask enc encMask layers 0 hidden st

/-- Reference formulation for the outputs-gather claim: the same loop
with the outputs tensor withheld from every layer. -/
def decoderLoopNoOut (opts : TextModelOptions) (pos mask : T) (enc : Option T)
    (encMask : T) :
    List TextDecoderLayer → Nat → T → CacheState → T × CacheState
  | [], _, hidden, st => (hidden, st)
  | l :: rest, i, hidden, st =>
    let lt := layerKindAt opts i
    let st2 := { st with layer := i, layerIsCross := lt == LayerKind.crossK }
    if lt == LayerKind.selfK || enc.isSome || st2.encoderCached then
      let p := l.forward st2 hidden pos none mask enc encMask opts
      decoderLoopNoOut opts pos mask enc encMask rest (i + 1) p.1 p.2
    else
      decoderLoopNoOut opts pos mask enc encMask rest (i + 1) hidden st2

/-- Sample two-layer stack: a self-attention block followed by a
cross-attention block. -/
def sampleSelfLayer : TextDecoderLayer :=
  .selfAttn
    { attentionNorm := T.leaf "attn_norm.0"
      selfAttention :=
        { query := T.leaf "attn_q.0"
          key := T.leaf "attn_k.0"
          value := T.leaf "attn_v.0"
          output := T.leaf "attn_output.0"
          ropeFactors := T.leaf "rope_freqs.0" }
      mlpNorm := T.leaf "ffn_norm.0"
      mlp := { up := T.leaf "ffn_up.0", down := T.leaf "ffn_down.0", gate := T.leaf "ffn_gate.0" } }

/-- Sample cross-attention layer. -/
def sampleCrossLayer : TextDecoderLayer :=
  .cross
    { attentionNorm := T.leaf "attn_norm.1"
      crossAttention :=
        { queryNorm := T.leaf "cross_attn_q_norm.1"
          query := T.leaf "cross_attn_q_proj.1"
          keyNorm := T.leaf "cross_attn_k_norm.1"
          key := T.leaf "cross_attn_k_proj.1"
          value := T.leaf "cross_attn_v_proj.1"
          output := T.leaf "cross_attn_o_proj.1" }
      attentionGate := T.leaf "cross_attn_attn_gate.1"
      mlpNorm := T.leaf "ffn_norm.1"
      mlp := { up := T.leaf "ffn_up.1", down := T.leaf "ffn_down.1", gate := T.leaf "ffn_gate.1" }
      mlpGate := T.leaf "cross_attn_mlp_gate.1" }

/-- Sample configuration marking index 1 as the cross-attention layer. -/
def sampleOpts : TextModelOptions :=
  { hiddenSize := 8
    numHeads := 2
    numKVHeads := 2
    eps := 1
    ropeBase := 10000
    ropeScale := 1
    ropeDim := 4
    crossAttentionLayers := [1] }

/-! ## Theorems -/

theorem contains_eq_true_iff (l : List String) (a : String) : l.contains a = true ↔ a ∈ l :=
  List.elem_iff

/-- C1: for every template source accepted by Parse, when the lowercased
identifier set of the parsed tree contains neither messages nor response
the constructed tree is the parsed root with a trailing Response action
appended; when it contains either, the tree is left exactly as parsed. -/
theorem parse_appends_implicit_response (root : List Node) :
    ("messages" ∉ Vars root ∧ "response" ∉ Vars root → Parse root = root ++ [responseNode]) ∧
    (("messages" ∈ Vars root ∨ "response" ∈ Vars root) → Parse root = root) := by
  constructor
  · intro h
    have hc : (!(Vars root).contains "messages" && !(Vars root).contains "response") = true := by
      simp only [Bool.and_eq_true, Bool.not_eq_true']
      constructor
      · rw [← Bool.not_eq_true, contains_eq_true_iff]; exact h.1
      · rw [← Bool.not_eq_true, contains_eq_true_iff]; exact h.2
    simp only [Parse]
    rw [hc]
    simp
  · intro h
    have hc : (!(Vars root).contains "messages" && !(Vars root).contains "response") = false := by
      rcases h with h | h
      · have hm : (Vars root).contains "messages" = true := (contains_eq_true_iff _ _).mpr h
        rw [hm, Bool.not_true, Bool.false_and]
      · have hm : (Vars root).contains "response" = true := (contains_eq_true_iff _ _).mpr h
        rw [hm, Bool.not_true, Bool.and_false]
    simp only [Parse]
    rw [hc]
    simp

/-- C1 witness: the Hello-Prompt template gets the trailing Response
action appended; the template already referencing response is kept. -/
theorem parse_appends_implicit_response_witness :
    Parse helloRoot = helloRoot ++ [responseNode] ∧
    Parse promptResponseRoot = promptResponseRoot :=
  ⟨(parse_appends_implicit_response helloRoot).1 (by decide),
   (parse_appends_implicit_response promptResponseRoot).2 (Or.inr (by decide))⟩

/-- C2 (the code at the failing input): on the template of a Prompt
action, a Response action and a trailing literal, with a user message u
and an assistant message r, the legacy final render still contains the
rendered Response field: the output is ur, and the surviving final tree
keeps the Response action while only the literal after it was deleted,
because the removal predicate answers false on the matching FieldNode
itself and true merely on the nodes visited after it. -/
theorem legacy_render_keeps_response_field :
    Execute (Parse promptResponseRoot)
        { messages := [Message.mk "user" "u" [] [], Message.mk "assistant" "r" [] []] }
      = some "ur" ∧
    legacyFinalTree (Parse promptResponseRoot) =
      .list [.action (.pipe [.command [.field ["Prompt"]]]),
             .action (.pipe [.command [.field ["Response"]]])] :=
  ⟨by decide, rfl⟩

/-- C3 counterexample: executing the parsed Hello-Prompt template with a
Values record whose Prompt field is world does not write Hello world!. -/
theorem execute_prompt_only_counterexample :
    Execute (Parse helloRoot) { prompt := "world" } ≠ some "Hello world!" := by
  decide

/-- C3 (amended): with only the Prompt field set and Suffix empty the
legacy path never reads the Prompt value and writes Hello !; the output
Hello world! is produced when the prompt arrives as a user message. -/
theorem execute_prompt_only_amended :
    Execute (Parse helloRoot) { prompt := "world" } = some "Hello !" ∧
    Execute (Parse helloRoot) { messages := [Message.mk "user" "world" [] []] }
      = some "Hello world!" :=
  ⟨by decide, by decide⟩

/-- C4: with the scenario S4 vocabulary, Encode of ab without specials is
the whole-piece id 2, and Encode of a-space-b is ids 0, 3, 1 after the
space is replaced by the sentinel and no merge applies. -/
theorem spm_encode_scenario :
    spmS4.encode "ab" false = [2] ∧ spmS4.encode "a b" false = [0, 3, 1] :=
  ⟨by decide, by decide⟩

/-- C5 (amended): for every tokenizer and every input whose raw encoding
is non-empty, Encode with addSpecial prepends BOS when AddBOS is set and
appends EOS when AddEOS is set, even when the sequence already begins or
ends with that id (the source only logs a warning there); when the raw
encoding is empty nothing is added. -/
theorem encode_add_special_bookends (spm : SentencePieceModel) (s : String) :
    (spm.encodeRaw s ≠ [] →
      spm.encode s true =
        (if spm.vocab.addBOS then [spm.vocab.bos] else []) ++ spm.encodeRaw s ++
          (if spm.vocab.addEOS then [spm.vocab.eos] else [])) ∧
    (spm.encodeRaw s = [] → spm.encode s true = []) := by
  constructor
  · intro h
    have hl : 0 < (spm.encodeRaw s).length := List.length_pos.mpr h
    simp only [SentencePieceModel.encode]
    rw [if_pos ⟨trivial, hl⟩]
    by_cases hb : spm.vocab.addBOS <;> by_cases he : spm.vocab.addEOS <;>
      simp [hb, he]
  · intro h
    simp [SentencePieceModel.encode, h]

/-- C5 counterexample: with the AddBOS flag set, encoding the empty
string with addSpecial true does not prepend the BOS id: the result is
the empty sequence, not the one-element BOS list the claim requires for
every input string. -/
theorem encode_add_special_empty_counterexample :
    spmS4.vocab.addBOS = true ∧ spmS4.encode "" true ≠ [spmS4.vocab.bos] := by
  decide

/-- C5 witness: concrete bookends on the scenario tokenizer, whose AddBOS
flag is set: a-space-b gains the leading BOS id 3, the empty string
stays empty. -/
theorem encode_add_special_bookends_witness :
    spmS4.encode "a b" true = [3, 0, 3, 1] ∧ spmS4.encode "" true = [] := by
  have h1 := (encode_add_special_bookends spmS4 "a b").1 (by decide)
  have h2 := (encode_add_special_bookends spmS4 "").2 (by decide)
  exact ⟨h1.trans (by decide), h2⟩

/-- One step of the capability walk: a known capability either adds its
error name or not, according to missingCap. -/
theorem checkCapabilitiesAux_step (m : ServerModel) (c : String) (rest errs : List String)
    (hc : c = "completion" ∨ c = "tools" ∨ c = "insert") :
    checkCapabilitiesAux m (c :: rest) errs =
      checkCapabilitiesAux m rest (errs ++ if missingCap m c then [c] else []) := by
  rcases hc with hc | hc | hc <;> subst hc
  · by_cases ho : m.openOk = false
    · simp [checkCapabilitiesAux, missingCap, ho]
    · have ho2 : m.openOk = true := by
        cases hval : m.openOk
        · exact absurd hval ho
        · rfl
      by_cases hd : m.decodeOk = false
      · simp [checkCapabilitiesAux, missingCap, ho, hd, ho2]
      · have hd2 : m.decodeOk = true := by
          cases hval : m.decodeOk
          · exact absurd hval hd
          · rfl
        by_cases hp : m.hasPoolingType <;>
          simp [checkCapabilitiesAux, missingCap, ho, hd, ho2, hd2, hp]
  · by_cases ht : "tools" ∈ m.templateVars <;>
      simp [checkCapabilitiesAux, missingCap, ht]
  · by_cases ht : "suffix" ∈ m.templateVars <;>
      simp [checkCapabilitiesAux, missingCap, ht]

/-- Closed form of the capability walk over known capabilities. -/
theorem checkCapabilitiesAux_spec (m : ServerModel) :
    ∀ (caps errs : List String),
      (∀ c ∈ caps, c = "completion" ∨ c = "tools" ∨ c = "insert") →
      checkCapabilitiesAux m caps errs =
        (if errs ++ caps.filter (fun c => missingCap m c) = [] then none
         else some ("does not support " ++
           joinSep "\n" (errs ++ caps.filter (fun c => missingCap m c)))) := by
  intro caps
  induction caps with
  | nil =>
    intro errs h
    cases errs with
    | nil => simp [checkCapabilitiesAux]
    | cons e es => simp [checkCapabilitiesAux]
  | cons c rest ih =>
    intro errs h
    rw [checkCapabilitiesAux_step m c rest errs (h c (List.mem_cons_self c rest))]
    rw [ih _ (fun x hx => h x (List.mem_cons_of_mem c hx))]
    by_cases hm : missingCap m c = true
    · simp [List.filter_cons, hm, List.append_assoc]
    · simp [List.filter_cons, hm]

/-- C7: with every requested capability among the known three,
CheckCapabilities returns nil exactly when no capability is missing;
when at least one is missing it returns the single error whose message
is the prefix does-not-support followed by the newline-joined names of
exactly the missing capabilities. -/
theorem check_capabilities_missing (m : ServerModel) (caps : List String)
    (hknown : ∀ c ∈ caps, c = "completion" ∨ c = "tools" ∨ c = "insert") :
    (CheckCapabilities m caps = none ↔ caps.filter (fun c => missingCap m c) = []) ∧
    (caps.filter (fun c => missingCap m c) ≠ [] →
      CheckCapabilities m caps =
        some ("does not support " ++ joinSep "\n" (caps.filter (fun c => missingCap m c)))) := by
  have h := checkCapabilitiesAux_spec m caps [] hknown
  unfold CheckCapabilities
  rw [h]
  simp only [List.nil_append]
  constructor
  · constructor
    · intro hn
      by_contra hne
      rw [if_neg hne] at hn
      exact Option.noConfusion hn
    · intro he
      rw [if_pos he]
  · intro hne
    rw [if_neg hne]

/-- C7 witness: requesting tools on a model whose template variables lack
tools yields exactly the error does not support tools. -/
theorem check_capabilities_missing_witness :
    CheckCapabilities modelNoTools ["tools"] = some "does not support tools" := by
  have h := (check_capabilities_missing modelNoTools ["tools"] (by decide)).2 (by decide)
  rw [h]
  decide

/-- C10: a failed open of the weights file or a failed GGML decode during
the completion capability check is only logged and the capability is
skipped without recording an error, so the check returns nil. -/
theorem check_capabilities_completion_io_skip (m : ServerModel)
    (h : m.openOk = false ∨ m.decodeOk = false) :
    CheckCapabilities m ["completion"] = none := by
  unfold CheckCapabilities
  rcases h with h | h
  · simp [checkCapabilitiesAux, h]
  · by_cases ho : m.openOk = false <;> simp [checkCapabilitiesAux, h, ho]

/-- C10 witness: the model whose weights file fails to open passes the
completion capability check with a nil error. -/
theorem check_capabilities_completion_io_skip_witness :
    CheckCapabilities modelNoFile ["completion"] = none :=
  check_capabilities_completion_io_skip modelNoFile (Or.inl rfl)

/-- Membership after erasing every element of a list from a finite set. -/
theorem mem_foldl_erase (l : List String) (s : Finset String) (d : String) :
    d ∈ l.foldl (fun acc x => acc.erase x) s ↔ d ∈ s ∧ d ∉ l := by
  induction l generalizing s with
  | nil => simp
  | cons x xs ih =>
    simp only [List.foldl_cons, ih, Finset.mem_erase, List.mem_cons]
    constructor
    · rintro ⟨⟨hne, hs⟩, hxs⟩
      exact ⟨hs, fun hc => hc.elim (fun he => hne he) hxs⟩
    · rintro ⟨hs, hn⟩
      exact ⟨⟨fun he => hn (Or.inl he), hs⟩, fun hx => hn (Or.inr hx)⟩

/-- Membership after the manifest subtraction pass of deleteUnusedLayers. -/
theorem mem_manifests_subtract (manifests : List ManifestD) (dm : Finset String) (d : String) :
    d ∈ manifests.foldl
        (fun acc mf => (mf.layerDigests.foldl (fun a x => a.erase x) acc).erase mf.configDigest)
        dm ↔
      d ∈ dm ∧ ¬ referencedDigest manifests d := by
  induction manifests generalizing dm with
  | nil => simp [referencedDigest]
  | cons mf ms ih =>
    simp only [List.foldl_cons, ih, Finset.mem_erase, mem_foldl_erase, referencedDigest,
      List.mem_cons]
    aesop

/-- C8: deleteUnusedLayers removes exactly the candidate digests that no
installed manifest references: every digest among some manifest's layers
or config is subtracted from the candidate set, and a digest survives in
the blob store iff it was not one of the remaining candidates
(candidates being well-formed digests). -/
theorem delete_unused_layers_exact (manifests : List ManifestD)
    (deleteMap store : Finset String)
    (hvalid : ∀ d ∈ deleteMap, validDigest d = true) (d : String) :
    d ∈ deleteUnusedLayers manifests deleteMap store ↔
      d ∈ store ∧ ¬(d ∈ deleteMap ∧ ¬ referencedDigest manifests d) := by
  unfold deleteUnusedLayers
  simp only [Finset.mem_sdiff, Finset.mem_filter, mem_manifests_subtract]
  constructor
  · rintro ⟨hs, hn⟩
    refine ⟨hs, ?_⟩
    rintro ⟨hdm, href⟩
    exact hn ⟨⟨hdm, href⟩, hvalid d hdm⟩
  · rintro ⟨hs, hn⟩
    refine ⟨hs, ?_⟩
    rintro ⟨⟨hdm, href⟩, hva⟩
    exact hn ⟨hdm, href⟩

/-- C8 witness: with one installed manifest referencing digA as config
and digB as its layer, pruning with candidates digA and digC over a
store holding all three removes exactly the unreferenced candidate. -/
theorem delete_unused_layers_exact_witness :
    digC ∈ deleteUnusedLayers [mfAB] {digA, digC} {digA, digB, digC} ↔
      digC ∈ ({digA, digB, digC} : Finset String) ∧
        ¬(digC ∈ ({digA, digC} : Finset String) ∧ ¬ referencedDigest [mfAB] digC) :=
  delete_unused_layers_exact [mfAB] {digA, digC} {digA, digB, digC} (by decide) digC

/-- joinSep over an appended singleton. -/
theorem joinSep_append_single (sep x : String) (l : List String) :
    joinSep sep (l ++ [x]) = if l = [] then x else joinSep sep l ++ sep ++ x := by
  induction l with
  | nil => simp [joinSep]
  | cons y ys ih =>
    cases ys with
    | nil => simp [joinSep]
    | cons z zs =>
      simp only [List.cons_append, List.append_eq, joinSep] at ih ⊢
      rw [ih]
      simp [String.append_assoc]

/-- joinSep when the appended singleton already carries the separator. -/
theorem joinSep_append_merge (sep x y : String) (l : List String) :
    joinSep sep (l ++ [x ++ sep ++ y]) = joinSep sep (l ++ [x]) ++ sep ++ y := by
  rw [joinSep_append_single, joinSep_append_single]
  by_cases h : l = []
  · simp [h]
  · simp [h, String.append_assoc]

/-- sysContents distributes over append. -/
theorem sysContents_append (a b : List Message) :
    sysContents (a ++ b) = sysContents a ++ sysContents b := by
  simp [sysContents, List.filter_append]

/-- sysContents of a cons. -/
theorem sysContents_cons (m : Message) (rest : List Message) :
    sysContents (m :: rest) =
      (if m.role == "system" then [m.content] else []) ++ sysContents rest := by
  simp only [sysContents, List.filter_cons]
  by_cases h : m.role == "system" <;> simp [h]

/-- sysContents of a reversed cons. -/
theorem sysContents_reverse_cons (x : Message) (l : List Message) :
    sysContents ((x :: l).reverse) =
      sysContents l.reverse ++ (if x.role == "system" then [x.content] else []) := by
  rw [List.reverse_cons, sysContents_append]
  congr 1
  rw [sysContents_cons]
  simp [sysContents]

/-- roleNe chains survive reversal. -/
theorem chain'_roleNe_reverse {l : List Message} (h : List.Chain' roleNe l) :
    List.Chain' roleNe l.reverse := by
  rw [List.chain'_reverse]
  exact List.Chain'.imp (fun a b hab => Ne.symm hab) h

/-- The system accumulator of collateAux collects every system content. -/
theorem collateAux_fst : ∀ (msgs : List Message) (sys : List String) (col : List Message),
    (collateAux msgs sys col).1 = sys ++ sysContents msgs := by
  intro msgs
  induction msgs with
  | nil =>
    intro sys col
    simp [collateAux, sysContents]
  | cons m rest ih =>
    intro sys col
    rw [sysContents_cons]
    cases col with
    | nil =>
      by_cases h : m.role == "system" <;>
        simp [collateAux, h, ih, List.append_assoc]
    | cons c cs =>
      by_cases hr : c.role == m.role <;>
        by_cases h : m.role == "system" <;>
          simp [collateAux, h, hr, ih, List.append_assoc]

/-- The collated list never holds two adjacent messages of one role. -/
theorem collateAux_chain' : ∀ (msgs : List Message) (sys : List String) (col : List Message),
    List.Chain' roleNe col → List.Chain' roleNe (collateAux msgs sys col).2 := by
  intro msgs
  induction msgs with
  | nil =>
    intro sys col h
    simpa [collateAux] using chain'_roleNe_reverse h
  | cons m rest ih =>
    intro sys col h
    cases col with
    | nil =>
      simp only [collateAux]
      exact ih _ _ (List.chain'_singleton m)
    | cons c cs =>
      by_cases hr : c.role == m.role
      · simp only [collateAux, hr, if_true]
        apply ih
        rcases List.chain'_cons'.mp h with ⟨hhead, hcs⟩
        exact List.chain'_cons'.mpr ⟨fun b hb => hhead b hb, hcs⟩
      · simp only [collateAux, hr, if_false, Bool.false_eq_true]
        apply ih
        refine List.chain'_cons.mpr ⟨?_, h⟩
        intro he
        exact hr (by simp [he])

/-- collateAux over an adjacently-distinct remainder extends the
accumulator verbatim. -/
theorem collateAux_of_chain' : ∀ (msgs : List Message) (sys : List String)
    (c : Message) (cs : List Message),
    List.Chain' roleNe (c :: msgs) →
    collateAux msgs sys (c :: cs) = (sys ++ sysContents msgs, (c :: cs).reverse ++ msgs) := by
  intro msgs
  induction msgs with
  | nil =>
    intro sys c cs h
    simp [collateAux, sysContents]
  | cons m rest ih =>
    intro sys c cs h
    have hcm : roleNe c m := (List.chain'_cons.mp h).1
    have hrest : List.Chain' roleNe (m :: rest) := (List.chain'_cons.mp h).2
    have hr : (c.role == m.role) = false := by
      simp only [beq_eq_false_iff_ne, ne_eq]
      exact hcm
    simp only [collateAux, hr, if_false, Bool.false_eq_true]
    rw [ih _ m (c :: cs) hrest, sysContents_cons]
    by_cases hs : m.role == "system" <;>
      simp [hs, List.reverse_cons, List.append_assoc]

/-- collate leaves an adjacently-distinct list unchanged and re-collects
exactly its system contents. -/
theorem collateAux_id_of_chain' (msgs : List Message) (h : List.Chain' roleNe msgs) :
    collateAux msgs [] [] = (sysContents msgs, msgs) := by
  cases msgs with
  | nil => simp [collateAux, sysContents]
  | cons c ms =>
    simp only [collateAux]
    rw [collateAux_of_chain' ms _ c [] h, sysContents_cons]
    by_cases hs : c.role == "system" <;> simp [hs]

/-- Joining the system contents of the collated list gives the joined
system accumulator: each per-message merge inserts exactly the separator
the final join would. -/
theorem collateAux_join : ∀ (msgs : List Message) (sys : List String) (col : List Message),
    joinSep "\n\n" (sysContents col.reverse) = joinSep "\n\n" sys →
    (sysContents col.reverse = [] ↔ sys = []) →
    joinSep "\n\n" (sysContents (collateAux msgs sys col).2) =
      joinSep "\n\n" ((collateAux msgs sys col).1) := by
  intro msgs
  induction msgs with
  | nil =>
    intro sys col h1 h2
    simpa [collateAux] using h1
  | cons m rest ih =>
    intro msys col h1 h2
    cases col with
    | nil =>
      have hsys : msys = [] := h2.mp (by simp [sysContents])
      subst hsys
      simp only [collateAux]
      apply ih
      · by_cases hs : m.role == "system" <;>
          simp [sysContents_reverse_cons, sysContents, hs, joinSep]
      · by_cases hs : m.role == "system" <;>
          simp [sysContents_reverse_cons, sysContents, hs]
    | cons c cs =>
      by_cases hr : c.role == m.role
      · -- merge branch: the head of the accumulator absorbs m.content
        have hrole : c.role = m.role := by simpa using hr
        simp only [collateAux, hr, if_true]
        apply ih
        · rw [sysContents_reverse_cons] at h1
          rw [sysContents_reverse_cons]
          by_cases hcs : c.role == "system"
          · have hms : (m.role == "system") = true := by rw [← hrole]; exact hcs
            simp only [hcs, if_true, hms] at h1 ⊢
            rw [joinSep_append_merge, h1]
            have hne : msys ≠ [] := by
              intro hc
              have hc2 := h2.mpr hc
              rw [sysContents_reverse_cons, hcs] at hc2
              simp at hc2
            rw [joinSep_append_single, if_neg hne]
          · have hms : (m.role == "system") = false := by
              rw [← hrole]; simpa using hcs
            simp only [hcs, hms, if_false, Bool.false_eq_true, List.append_nil] at h1 ⊢
            exact h1
        · rw [sysContents_reverse_cons] at h2
          rw [sysContents_reverse_cons]
          by_cases hcs : c.role == "system"
          · have hms : (m.role == "system") = true := by rw [← hrole]; exact hcs
            simp only [hcs, if_true, hms] at h2 ⊢
            constructor
            · intro hc; simp at hc
            · intro hc; simp at hc
          · have hms : (m.role == "system") = false := by
              rw [← hrole]; simpa using hcs
            simp only [hcs, hms, if_false, Bool.false_eq_true, List.append_nil] at h2 ⊢
            exact h2
      · -- push branch: m starts a new collated entry
        simp only [collateAux, hr, if_false, Bool.false_eq_true]
        apply ih
        · rw [sysContents_reverse_cons m (c :: cs)]
          by_cases hs : m.role == "system"
          · simp only [hs, if_true]
            rw [joinSep_append_single, joinSep_append_single]
            by_cases hemp : sysContents ((c :: cs).reverse) = []
            · rw [if_pos hemp, if_pos (h2.mp hemp)]
            · rw [if_neg hemp, if_neg (fun hc => hemp (h2.mpr hc)), h1]
          · simp only [hs, if_false, Bool.false_eq_true, List.append_nil]
            exact h1
        · rw [sysContents_reverse_cons m (c :: cs)]
          by_cases hs : m.role == "system"
          · simp only [hs, if_true]
            constructor
            · intro hc; simp at hc
            · intro hc; simp at hc
          · simp only [hs, if_false, Bool.false_eq_true, List.append_nil]
            exact h2

/-- C6: collate is idempotent: re-collating the collated message list
returns the same system string (the blank-line join of all system
contents) and the same collated list. -/
theorem collate_idempotent (msgs : List Message) :
    collate (collate msgs).2 = collate msgs := by
  have hchain : List.Chain' roleNe (collateAux msgs [] []).2 :=
    collateAux_chain' msgs [] [] List.chain'_nil
  have hid := collateAux_id_of_chain' (collateAux msgs [] []).2 hchain
  have hjoin := collateAux_join msgs [] [] (by simp [sysContents]) (by simp [sysContents])
  unfold collate
  simp only []
  rw [hid]
  simp only []
  rw [Prod.mk.injEq]
  exact ⟨hjoin, rfl⟩

/-- Splitting the decoder loop over an appended layer list. -/
theorem decoderLoop_append (opts : TextModelOptions) (total : Nat) (pos : T)
    (outputs : Option T) (mask : T) (enc : Option T) (encMask : T) :
    ∀ (xs ys : List TextDecoderLayer) (i : Nat) (hidden : T) (st : CacheState),
      decoderLoop opts total pos outputs mask enc encMask (xs ++ ys) i hidden st =
        decoderLoop opts total pos outputs mask enc encMask ys (i + xs.length)
          (decoderLoop opts total pos outputs mask enc encMask xs i hidden st).1
          (decoderLoop opts total pos outputs mask enc encMask xs i hidden st).2 := by
  intro xs
  induction xs with
  | nil =>
    intro ys i hidden st
    simp [decoderLoop]
  | cons l ls ih =>
    intro ys i hidden st
    simp only [List.cons_append, List.append_eq, decoderLoop, List.length_cons]
    have harith : i + 1 + ls.length = i + (ls.length + 1) := by omega
    split
    · rw [ih, harith]
    · rw [ih, harith]

/-- Below the last index the loop never passes the outputs tensor. -/
theorem decoderLoop_eq_noOut (opts : TextModelOptions) (total : Nat) (pos : T)
    (outputs : Option T) (mask : T) (enc : Option T) (encMask : T) :
    ∀ (xs : List TextDecoderLayer) (i : Nat),
      (∀ j, j < xs.length → i + j ≠ total - 1) →
      ∀ (hidden : T) (st : CacheState),
        decoderLoop opts total pos outputs mask enc encMask xs i hidden st =
          decoderLoopNoOut opts pos mask enc encMask xs i hidden st := by
  intro xs
  induction xs with
  | nil =>
    intro i h hidden st
    simp [decoderLoop, decoderLoopNoOut]
  | cons l ls ih =>
    intro i h hidden st
    have hlen : (l :: ls).length = ls.length + 1 := rfl
    have h0 : i ≠ total - 1 := by
      have := h 0 (by rw [hlen]; omega)
      simpa using this
    have hbe : (i == total - 1) = false := by
      simpa using h0
    have hshift : ∀ j, j < ls.length → i + 1 + j ≠ total - 1 := by
      intro j hj
      have := h (j + 1) (by rw [hlen]; omega)
      omega
    simp only [decoderLoop, decoderLoopNoOut, hbe, Bool.false_eq_true, if_false]
    split
    · rw [ih (i + 1) hshift]
    · rw [ih (i + 1) hshift]

/-- Loop over a list ending at the last index: every earlier layer runs
with a nil outputs tensor and the last receives it, under the guard. -/
theorem decoderLoop_last (opts : TextModelOptions) (pos : T) (outputs : Option T)
    (mask : T) (enc : Option T) (encMask : T) (xs : List TextDecoderLayer)
    (l : TextDecoderLayer) (hidden : T) (st : CacheState) :
    decoderLoop opts (xs.length + 1) pos outputs mask enc encMask (xs ++ [l]) 0 hidden st =
      (let p := decoderLoopNoOut opts pos mask enc encMask xs 0 hidden st
       let lt := layerKindAt opts xs.length
       let st2 : CacheState :=
         { p.2 with layer := xs.length, layerIsCross := lt == LayerKind.crossK }
       if lt == LayerKind.selfK || enc.isSome || st2.encoderCached then
         l.forward st2 p.1 pos outputs mask enc encMask opts
       else (p.1, st2)) := by
  rw [decoderLoop_append]
  rw [decoderLoop_eq_noOut opts (xs.length + 1) pos outputs mask enc encMask xs 0
    (fun j hj => by omega)]
  have hbe : (xs.length == xs.length + 1 - 1) = true := by simp
  simp only [Nat.zero_add, decoderLoop, hbe, if_true]

/-- C9: the decoder applies the row-gather outputs tensor only at the
final layer of the stack: the forward pass equals running every earlier
layer with a nil outputs tensor and then running the layer at the last
index, of whichever kind, with the outputs tensor, under the guard that
skips a cross-attention layer unless encoder output is present or its
cache already holds encoder state. -/
theorem decoder_outputs_last_layer_only (layers : List TextDecoderLayer)
    (opts : TextModelOptions) (hidden pos : T) (outputs : Option T) (mask : T)
    (enc : Option T) (encMask : T) (st : CacheState) (h : layers ≠ []) :
    TextDecoder.forward layers opts hidden pos outputs mask enc encMask st =
      (let p := decoderLoopNoOut opts pos mask enc encMask layers.dropLast 0 hidden st
       let n := layers.length - 1
       let lt := layerKindAt opts n
       let st2 : CacheState := { p.2 with layer := n, layerIsCross := lt == LayerKind.crossK }
       if lt == LayerKind.selfK || enc.isSome || st2.encoderCached then
         (layers.getLast h).forward st2 p.1 pos outputs mask enc encMask opts
       else (p.1, st2)) := by
  have hsplit : layers.dropLast ++ [layers.getLast h] = layers :=
    List.dropLast_append_getLast h
  have hpos : 0 < layers.length := List.length_pos.mpr h
  have hlen : layers.length = layers.dropLast.length + 1 := by
    rw [List.length_dropLast]
    omega
  calc TextDecoder.forward layers opts hidden pos outputs mask enc encMask st
      = decoderLoop opts layers.length pos outputs mask enc encMask layers 0 hidden st := rfl
    _ = decoderLoop opts (layers.dropLast.length + 1) pos outputs mask enc encMask
          (layers.dropLast ++ [layers.getLast h]) 0 hidden st := by
        rw [hsplit, ← hlen]
    _ = _ := by
        rw [decoderLoop_last]
        simp only [List.length_dropLast]

/-- C9 witness: the decomposition at the two-layer sample stack, a
self-attention layer followed by the configured cross-attention layer,
with encoder output present. -/
theorem decoder_outputs_last_layer_only_witness :
    TextDecoder.forward [sampleSelfLayer, sampleCrossLayer] sampleOpts (T.leaf "hidden")
        (T.leaf "pos") (some (T.leaf "outputs")) (T.leaf "mask") (some (T.leaf "enc"))
        (T.leaf "encMask") {} =
      (let p := decoderLoopNoOut sampleOpts (T.leaf "pos") (T.leaf "mask")
          (some (T.leaf "enc")) (T.leaf "encMask")
          ([sampleSelfLayer, sampleCrossLayer].dropLast) 0 (T.leaf "hidden") {}
       let n := [sampleSelfLayer, sampleCrossLayer].length - 1
       let lt := layerKindAt sampleOpts n
       let st2 : CacheState := { p.2 with layer := n, layerIsCross := lt == LayerKind.crossK }
       if lt == LayerKind.selfK || (some (T.leaf "enc")).isSome || st2.encoderCached then
         ([sampleSelfLayer, sampleCrossLayer].getLast (by simp)).forward st2 p.1
           (T.leaf "pos") (some (T.leaf "outputs")) (T.leaf "mask") (some (T.leaf "enc"))
           (T.leaf "encMask") sampleOpts
       else (p.1, st2)) :=
  decoder_outputs_last_layer_only [sampleSelfLayer, sampleCrossLayer] sampleOpts
    (T.leaf "hidden") (T.leaf "pos") (some (T.leaf "outputs")) (T.leaf "mask")
    (some (T.leaf "enc")) (T.leaf "encMask") {} (by simp)

end OllamaSpec
